import Mathlib

/-!
Verification of the E-Library Organizer core (src/app.py).

The Python source is shallowly embedded as executable Lean definitions:

* Python strings become Lean `String` (a structure over `List Char`), and the
  Python string operations used by the program (`lower`, slicing, `split`,
  `strip`, the `in` substring test) are modelled by explicit functions over
  the character list.
* `extract_pdf_metadata` is embedded over the observable inputs of the PDF
  reader: the file stem, the raw document-info title/author (Python's falsy
  test on these fields is modelled by comparison with `""`), and the list of
  page texts.  The exception path of the Python `try` block is modelled by
  running the function on `Option` input (`none` = the reader raised).
* The Google Books call in `fetch_book_info` is embedded as an explicit
  `Lookup` outcome: `err` (the request raised, caught by `except`),
  `noMatch` (no `items` in the response), or `found v` with the fields of
  `items[0].volumeInfo` that the program reads. `dict.get(k, d)` becomes
  `Option.getD`; the `IndexError` raised by `[...][0]` on an empty
  `authors`/`categories` list is caught by the same `except` and therefore
  also lands in the keyword-bucket fallback.
* The Streamlit session-state library is a `List BookData`; the view helpers
  (`filtered_books`, `genre_count`, `favorite_genre`, `get_recommendations`)
  are embedded directly, with Python's insertion-ordered `dict` modelled as
  an ordered association list.
-/

namespace ELibrary

/-! ### Python string primitives -/

/-- Python's `sub in s` substring test. -/
def strContains (s sub : String) : Bool := decide (sub.data <:+: s.data)

/-- Python's `s.lower()` (ASCII letters, as exercised by the program). -/
def pyLower (s : String) : String := String.mk (s.data.map Char.toLower)

/-- Python's slice `s[:n]`. -/
def pyTake (s : String) (n : Nat) : String := String.mk (s.data.take n)

/-- Split a character list at every character satisfying `p`
(the separators are dropped, empty pieces are kept). -/
def splitOnP (p : Char → Bool) : List Char → List (List Char)
  | [] => [[]]
  | c :: cs =>
    if p c then [] :: splitOnP p cs
    else
      match splitOnP p cs with
      | [] => [[c]]
      | t :: ts => (c :: t) :: ts

/-- Python's `s.split('\n')`. -/
def pySplitLines (s : String) : List String :=
  (splitOnP (fun c => c = '\n') s.data).map String.mk

/-- Python's `s.split()` (whitespace-separated tokens, empty pieces dropped). -/
def pyTokens (s : String) : List (List Char) :=
  (splitOnP Char.isWhitespace s.data).filter (fun t => t ≠ [])

/-- Python's `s.strip()`. -/
def pyStrip (s : String) : String :=
  String.mk (((s.data.dropWhile Char.isWhitespace).reverse.dropWhile
      Char.isWhitespace).reverse)

/-! ### `extract_pdf_metadata` (src/app.py lines 22-72) -/

/-- The record returned by `extract_pdf_metadata`. -/
structure RawMeta where
  title : String
  author : String
  pages : Nat
  is_resume : Bool
  content_preview : String
deriving Repr, DecidableEq

/-- The keyword set tested against the lowercased first-page text
(src/app.py lines 33-35). -/
def resume_keywords : List String :=
  ["resume", "cv", "curriculum vitae", "professional experience",
   "education", "skills", "work experience"]

/-- `reader.pages[0].extract_text() if len(reader.pages) > 0 else ""`
(src/app.py line 30): page 0 is read only under the length guard. -/
def firstPageText (pages : List String) : String :=
  if h : 0 < pages.length then pages.get ⟨0, h⟩ else ""

/-- `any(keyword in first_page_text.lower() for keyword in [...])`
(src/app.py lines 33-35). -/
def isResumeText (text : String) : Bool :=
  resume_keywords.any (fun k => strContains (pyLower text) k)

/-- The per-line test of the resume author scan (src/app.py line 45):
`len(line.split()) >= 2 and not any(char.isdigit() for char in line)`. -/
def isNameLine (line : String) : Bool :=
  decide (2 ≤ (pyTokens line).length) && ! line.data.any Char.isDigit

/-- The resume author scan (src/app.py lines 41-47): the first qualifying
line among the first three lines becomes the author (stripped); otherwise
the fallback author is kept. -/
def inferResumeAuthor (first_page_text author : String) : String :=
  match ((pySplitLines first_page_text).take 3).find? isNameLine with
  | some line => pyStrip line
  | none => author

/-- The successful branch of `extract_pdf_metadata` (src/app.py lines
24-63), over the stem of the file path, the raw document-info title and
author (`""` models Python-falsy, i.e. absent), and the page texts. -/
def extract_pdf_metadata (stem info_title info_author : String)
    (pages : List String) : RawMeta :=
  let first_page_text := firstPageText pages
  let is_resume := isResumeText first_page_text
  let title := if info_title = "" then stem else info_title
  let author := if info_author = "" then "Unknown" else info_author
  if is_resume then
    { title := if title = stem then "Resume/CV" else title,
      author := inferResumeAuthor first_page_text author,
      pages := pages.length,
      is_resume := true,
      content_preview := pyTake first_page_text 500 }
  else
    { title := title, author := author, pages := pages.length,
      is_resume := false, content_preview := pyTake first_page_text 500 }

/-- The `except` branch of `extract_pdf_metadata` (src/app.py lines 64-72). -/
def extract_pdf_metadata_failed (stem : String) : RawMeta :=
  { title := stem, author := "Unknown", pages := 0,
    is_resume := false, content_preview := "" }

/-- `extract_pdf_metadata` including the exception handler: `none` models a
raising PDF reader, `some (title, author, pages)` a readable file. -/
def extract_pdf_metadata_run (stem : String)
    (pdf : Option (String × String × List String)) : RawMeta :=
  match pdf with
  | some (t, a, ps) => extract_pdf_metadata stem t a ps
  | none => extract_pdf_metadata_failed stem

/-! ### `fetch_book_info` (src/app.py lines 74-132) -/

/-- The record returned by `fetch_book_info`. -/
structure BookInfo where
  title : String
  author : String
  genre : String
  description : String
  thumbnail : Option String
deriving Repr, DecidableEq

/-- The fields of `items[0].volumeInfo` that the program reads; `none`
models an absent key. -/
structure VolumeInfo where
  title : Option String
  authors : Option (List String)
  categories : Option (List String)
  description : Option String
  thumbnail : Option String
deriving Repr, DecidableEq

/-- Outcome of the Google Books request: `err` = `requests.get`/`json`
raised (caught at src/app.py line 103), `noMatch` = no nonempty `items`
array, `found v` = `items[0].volumeInfo` parsed as `v`. -/
inductive Lookup where
  | err : Lookup
  | noMatch : Lookup
  | found : VolumeInfo → Lookup
deriving Repr, DecidableEq

/-- The fixed fallback buckets, in declaration order
(src/app.py lines 107-113). -/
def categories : List (String × List String) :=
  [("Business", ["business", "management", "finance", "marketing", "economics"]),
   ("Technology", ["programming", "software", "computer", "technology", "engineering"]),
   ("Science", ["science", "physics", "chemistry", "biology", "research"]),
   ("Education", ["education", "learning", "teaching", "academic", "school"]),
   ("Other", [])]

/-- `any(keyword in content_lower for keyword in keywords)`
(src/app.py line 117). -/
def bucketMatches (content_lower : String) (bucket : String × List String) : Bool :=
  bucket.2.any (fun k => strContains content_lower k)

/-- The keyword-bucket fallback of `fetch_book_info`
(src/app.py lines 106-132). -/
def categorize_by_content (title author content_preview : String) : BookInfo :=
  let content_lower := pyLower content_preview
  match categories.find? (bucketMatches content_lower) with
  | some bucket =>
    { title := title, author := author, genre := bucket.1,
      description := pyTake content_preview 200 ++ "...",
      thumbnail := none }
  | none =>
    { title := title, author := author, genre := "Document",
      description := pyTake content_preview 200 ++ "...",
      thumbnail := some "https://cdn-icons-png.flaticon.com/512/337/337946.png" }

/-- `fetch_book_info` (src/app.py lines 74-132).  The `| _, _ =>` arm of the
inner match models the `IndexError` raised by `get('authors', [author])[0]`
or `get('categories', ["Uncategorized"])[0]` on a present-but-empty list,
which the surrounding `except` turns into the keyword fallback. -/
def fetch_book_info (title author content_preview : String)
    (is_resume : Bool) (lookup : Lookup) : BookInfo :=
  if is_resume then
    { title := title, author := author, genre := "Resume/CV",
      description := "Professional document for " ++ author ++ ". "
        ++ pyTake content_preview 150 ++ "...",
      thumbnail := some "https://cdn-icons-png.flaticon.com/512/3135/3135692.png" }
  else
    match lookup with
    | Lookup.found v =>
      match (v.authors.getD [author]).head?, (v.categories.getD ["Uncategorized"]).head? with
      | some a, some g =>
        { title := v.title.getD title, author := a, genre := g,
          description := v.description.getD "No description available",
          thumbnail := v.thumbnail }
      | _, _ => categorize_by_content title author content_preview
    | _ => categorize_by_content title author content_preview

/-! ### `book_data` assembly and the library views
(src/app.py lines 134-140, 161-180, 210-219, 261-270) -/

/-- One library record (`book_data`, src/app.py lines 172-180). -/
structure BookData where
  file_path : String
  title : String
  author : String
  genre : String
  pages : Nat
  description : String
  thumbnail : Option String
deriving Repr, DecidableEq

/-- The upload pipeline (src/app.py lines 161-180): extract metadata, fetch
book info, and combine into the record appended to the library. -/
def build_book_data (file_path stem : String)
    (pdf : Option (String × String × List String)) (lookup : Lookup) : BookData :=
  let metadata := extract_pdf_metadata_run stem pdf
  let info := fetch_book_info metadata.title metadata.author
      metadata.content_preview metadata.is_resume lookup
  { file_path := file_path, title := info.title, author := info.author,
    genre := info.genre, pages := metadata.pages,
    description := info.description, thumbnail := info.thumbnail }

/-- `get_recommendations` (src/app.py lines 134-140). -/
def get_recommendations (genre : String) (library : List BookData) : List BookData :=
  (library.foldl
    (fun recommendations book =>
      if book.genre = genre ∧ book ∉ recommendations
      then recommendations ++ [book] else recommendations)
    []).take 3

/-- The search filter of the library page (src/app.py lines 214-219); the
`if search_query:` truthiness test is the `≠ ""` guard. -/
def filtered_books (library : List BookData) (search_query : String) : List BookData :=
  if search_query ≠ "" then
    library.filter (fun book =>
      strContains (pyLower book.title) (pyLower search_query) ||
      strContains (pyLower book.author) (pyLower search_query) ||
      strContains (pyLower book.genre) (pyLower search_query))
  else library

/-- One step of building `genre_count` (src/app.py lines 263-268), with the
insertion-ordered Python dict as an ordered association list. -/
def bump_genre (counts : List (String × Nat)) (genre : String) : List (String × Nat) :=
  if counts.any (fun p => p.1 = genre) then
    counts.map (fun p => if p.1 = genre then (p.1, p.2 + 1) else p)
  else counts ++ [(genre, 1)]

/-- The `genre_count` dict (src/app.py lines 262-268). -/
def genre_count (library : List BookData) : List (String × Nat) :=
  library.foldl (fun counts book => bump_genre counts book.genre) []

/-- The scan performed by Python's `max(keys, key=get)`: the running
maximum is replaced only on a strictly greater value, so the first entry
attaining the maximum wins. -/
def pickMax (p0 : String × Nat) (ps : List (String × Nat)) : String × Nat :=
  ps.foldl (fun best q => if best.2 < q.2 then q else best) p0

/-- `max(genre_count, key=genre_count.get)` (src/app.py line 270);
`max` on an empty dict raises, modelled by `none`. -/
def favorite_genre (library : List BookData) : Option String :=
  match genre_count library with
  | [] => none
  | p :: ps => some (pickMax p ps).1

/-- First-occurrence deduplication, the effect of the `not in` test in
`get_recommendations` and of dict-key insertion order in `genre_count`. -/
def dedupKeepFirst {α : Type} [DecidableEq α] (l : List α) : List α :=
  l.foldl (fun acc a => if a ∈ acc then acc else acc ++ [a]) []

/-- The multiset of genres of a library, in library order. -/
def genresOf (library : List BookData) : List String :=
  library.map (fun b => b.genre)

/-! ### Supporting lemmas -/

theorem strContains_iff (s sub : String) :
    strContains s sub = true ↔ sub.data <:+: s.data :=
  decide_eq_true_iff

theorem firstPageText_cons (a : String) (l : List String) :
    firstPageText (a :: l) = a := by
  simp [firstPageText]

theorem extract_is_resume (stem info_title info_author : String)
    (pages : List String) :
    (extract_pdf_metadata stem info_title info_author pages).is_resume
      = isResumeText (firstPageText pages) := by
  cases h : isResumeText (firstPageText pages) <;>
    simp [extract_pdf_metadata, h]

/-! ### Claims -/

/-- Claim C9: when the metadata extractor raises, the error is caught and
extraction yields the degraded defaults (file stem as title, "Unknown"
author, zero pages, empty preview) instead of aborting; likewise a
catalog-lookup error is caught and classification falls back to the
keyword buckets.  Both failure handlers are total functions here: no
failure path aborts. -/
theorem claim_C9 (stem title author content_preview : String) :
    extract_pdf_metadata_run stem none
      = { title := stem, author := "Unknown", pages := 0,
          is_resume := false, content_preview := "" }
    ∧ fetch_book_info title author content_preview false Lookup.err
        = categorize_by_content title author content_preview :=
  ⟨rfl, rfl⟩

/-- Claim C10: on a readable PDF with zero pages the guarded first-page
read yields the empty string (page 0 is only accessed under the
`0 < length` guard, so the out-of-bounds branch is unreachable), hence
`is_resume` is `false`, the preview is empty, and the page count is 0. -/
theorem claim_C10 (stem info_title info_author : String) :
    extract_pdf_metadata stem info_title info_author []
      = { title := if info_title = "" then stem else info_title,
          author := if info_author = "" then "Unknown" else info_author,
          pages := 0, is_resume := false, content_preview := "" } := by
  have h : isResumeText "" = false := by decide
  simp [extract_pdf_metadata, h, firstPageText, pyTake]

/-- Claim C2: for a PDF with at least one page, `is_resume` is true iff the
lowercased first-page text contains one of the seven fixed resume keywords
as a substring; text containing none of them yields `false`. -/
theorem claim_C2 (stem info_title info_author text : String) (rest : List String) :
    (extract_pdf_metadata stem info_title info_author (text :: rest)).is_resume = true
      ↔ ∃ k ∈ resume_keywords, k.data <:+: (pyLower text).data := by
  rw [extract_is_resume, firstPageText_cons]
  simp [isResumeText, List.any_eq_true, strContains_iff]

/-- Claim C1: for a non-resume document whose catalog lookup errors or
returns no match, the genre comes from testing the lowercased preview
against the fixed buckets in declaration order with first match winning
(so a preview matching an earlier bucket classifies there even if later
buckets also match), and a preview matching none of the buckets yields
genre "Document", never "Other". -/
theorem claim_C1 (t a p : String) (lookup : Lookup)
    (hlk : lookup = Lookup.err ∨ lookup = Lookup.noMatch) :
    (∀ pre bucket post, categories = pre ++ bucket :: post →
        bucketMatches (pyLower p) bucket = true →
        (∀ b ∈ pre, bucketMatches (pyLower p) b = false) →
        (fetch_book_info t a p false lookup).genre = bucket.1)
    ∧ ((∀ b ∈ categories, bucketMatches (pyLower p) b = false) →
        (fetch_book_info t a p false lookup).genre = "Document")
    ∧ (fetch_book_info t a p false lookup).genre ≠ "Other" := by
  have hf : fetch_book_info t a p false lookup = categorize_by_content t a p := by
    rcases hlk with h | h <;> subst h <;> rfl
  rw [hf]
  refine ⟨?_, ?_, ?_⟩
  · intro pre bucket post hcat hb hpre
    have hfind : categories.find? (bucketMatches (pyLower p)) = some bucket :=
      List.find?_eq_some.mpr ⟨hb, pre, post, hcat, fun b hbmem => by simp [hpre b hbmem]⟩
    simp [categorize_by_content, hfind]
  · intro hall
    have hfind : categories.find? (bucketMatches (pyLower p)) = none :=
      List.find?_eq_none.mpr (fun b hbmem => by simp [hall b hbmem])
    simp [categorize_by_content, hfind]
  · cases hfind : categories.find? (bucketMatches (pyLower p)) with
    | none => simp [categorize_by_content, hfind]
    | some bucket =>
      have hmem := List.mem_of_find?_eq_some hfind
      have hp := List.find?_some hfind
      simp [categorize_by_content, hfind]
      simp [categories] at hmem
      rcases hmem with h | h | h | h | h <;> subst h
      · decide
      · decide
      · decide
      · decide
      · simp [bucketMatches] at hp

/-- Witness for claim C1: a preview containing both "business" and
"programming" classifies as "Business" (the first bucket wins). -/
theorem claim_C1_witness :
    (fetch_book_info "T" "A" "business programming" false Lookup.err).genre
      = "Business" := by
  have h := (claim_C1 "T" "A" "business programming" Lookup.err (Or.inl rfl)).1
  exact h []
    ("Business", ["business", "management", "finance", "marketing", "economics"])
    [("Technology", ["programming", "software", "computer", "technology", "engineering"]),
     ("Science", ["science", "physics", "chemistry", "biology", "research"]),
     ("Education", ["education", "learning", "teaching", "academic", "school"]),
     ("Other", [])]
    rfl (by decide) (by decide)

/-- Claim C3: on the resume path, classification returns genre exactly
"Resume/CV", description exactly "Professional document for {author}. "
followed by the first 150 characters of the preview and "...", the fixed
default resume icon URL, and a result independent of the catalog lookup
(the lookup is never consulted); and extraction replaces the title with
"Resume/CV" exactly when the raw title equals the file stem, keeping the
extracted title otherwise. -/
theorem claim_C3 (t a p stem info_title info_author text : String)
    (rest : List String) (lookup lookup2 : Lookup)
    (hres : (extract_pdf_metadata stem info_title info_author (text :: rest)).is_resume
      = true) :
    fetch_book_info t a p true lookup
      = { title := t, author := a, genre := "Resume/CV",
          description := "Professional document for " ++ a ++ ". "
            ++ pyTake p 150 ++ "...",
          thumbnail := some "https://cdn-icons-png.flaticon.com/512/3135/3135692.png" }
    ∧ fetch_book_info t a p true lookup = fetch_book_info t a p true lookup2
    ∧ (extract_pdf_metadata stem info_title info_author (text :: rest)).title
        = (if (if info_title = "" then stem else info_title) = stem then "Resume/CV"
           else (if info_title = "" then stem else info_title)) := by
  refine ⟨rfl, rfl, ?_⟩
  have h : isResumeText (firstPageText (text :: rest)) = true := by
    rw [← extract_is_resume]; exact hres
  simp [extract_pdf_metadata, h]

/-- Witness for claim C3: a one-page CV whose raw title falls back to the
stem gets title "Resume/CV", and the resume path fixes genre "Resume/CV". -/
theorem claim_C3_witness :
    (extract_pdf_metadata "cv" "" "" ["Curriculum Vitae"]).title = "Resume/CV"
    ∧ (fetch_book_info "T" "A" "p" true Lookup.err).genre = "Resume/CV" := by
  have h := claim_C3 "T" "A" "p" "cv" "" "" "Curriculum Vitae" []
    Lookup.err Lookup.noMatch (by decide)
  constructor
  · rw [h.2.2]; decide
  · rw [h.1]

/-- Claim C4: for a resume document, the inferred author is the stripped
first line among the first three lines of the first-page text that has at
least two whitespace-separated tokens and no digit character; if no such
line exists among the first three, the author is the raw extractor's
author ("Unknown" when the extractor supplied none). -/
theorem claim_C4 (stem info_title info_author text : String) (rest : List String)
    (hres : (extract_pdf_metadata stem info_title info_author (text :: rest)).is_resume
      = true) :
    (∀ pre line post,
        (pySplitLines text).take 3 = pre ++ line :: post →
        isNameLine line = true →
        (∀ l2 ∈ pre, isNameLine l2 = false) →
        (extract_pdf_metadata stem info_title info_author (text :: rest)).author
          = pyStrip line)
    ∧ ((∀ l2 ∈ (pySplitLines text).take 3, isNameLine l2 = false) →
        (extract_pdf_metadata stem info_title info_author (text :: rest)).author
          = (if info_author = "" then "Unknown" else info_author)) := by
  have h : isResumeText (firstPageText (text :: rest)) = true := by
    rw [← extract_is_resume]; exact hres
  rw [firstPageText_cons] at h
  have hauthor : (extract_pdf_metadata stem info_title info_author (text :: rest)).author
      = inferResumeAuthor text (if info_author = "" then "Unknown" else info_author) := by
    simp [extract_pdf_metadata, h, firstPageText_cons]
  rw [hauthor]
  constructor
  · intro pre line post hsplit hline hpre
    have hfind : ((pySplitLines text).take 3).find? isNameLine = some line :=
      List.find?_eq_some.mpr ⟨hline, pre, post, hsplit, fun l2 hl2 => by simp [hpre l2 hl2]⟩
    simp [inferResumeAuthor, hfind]
  · intro hall
    have hfind : ((pySplitLines text).take 3).find? isNameLine = none :=
      List.find?_eq_none.mpr (fun l2 hl2 => by simp [hall l2 hl2])
    simp [inferResumeAuthor, hfind]

/-- Witness for claim C4: first line "John A Smith" (two-plus tokens, no
digit) becomes the author of a detected resume. -/
theorem claim_C4_witness :
    (extract_pdf_metadata "cv" "" "" ["John A Smith\nCurriculum Vitae"]).author
      = "John A Smith" := by
  have h := (claim_C4 "cv" "" "" "John A Smith\nCurriculum Vitae" [] (by decide)).1
    [] "John A Smith" ["Curriculum Vitae"] (by decide) (by decide) (by decide)
  rw [h]; decide

theorem rec_foldl_eq (genre : String) (l : List BookData) (acc : List BookData) :
    l.foldl (fun recs b => if b.genre = genre ∧ b ∉ recs then recs ++ [b] else recs) acc
      = (l.filter (fun b => b.genre = genre)).foldl
          (fun acc b => if b ∈ acc then acc else acc ++ [b]) acc := by
  induction l generalizing acc with
  | nil => rfl
  | cons b bs ih =>
    by_cases hg : b.genre = genre
    · by_cases hm : b ∈ acc
      · simp [List.filter_cons, hg, hm, ih]
      · simp [List.filter_cons, hg, hm, ih]
    · simp [List.filter_cons, hg, ih]

theorem dedup_foldl_mem {α : Type} [DecidableEq α] (l acc : List α) (x : α) :
    (x ∈ l.foldl (fun acc a => if a ∈ acc then acc else acc ++ [a]) acc)
      ↔ x ∈ acc ∨ x ∈ l := by
  induction l generalizing acc with
  | nil => simp
  | cons b bs ih =>
    by_cases hb : b ∈ acc
    · simp only [List.foldl_cons, if_pos hb, ih, List.mem_cons]
      constructor
      · rintro (h | h)
        · exact Or.inl h
        · exact Or.inr (Or.inr h)
      · rintro (h | h | h)
        · exact Or.inl h
        · exact Or.inl (h ▸ hb)
        · exact Or.inr h
    · simp only [List.foldl_cons, if_neg hb, ih, List.mem_append,
        List.mem_singleton, List.mem_cons]
      tauto

theorem dedup_foldl_nodup {α : Type} [DecidableEq α] (l acc : List α)
    (h : acc.Nodup) :
    (l.foldl (fun acc a => if a ∈ acc then acc else acc ++ [a]) acc).Nodup := by
  induction l generalizing acc with
  | nil => exact h
  | cons b bs ih =>
    by_cases hb : b ∈ acc
    · simpa [hb] using ih acc h
    · have h2 : (acc ++ [b]).Nodup := by
        simp [List.nodup_append, h, hb]
      simpa [hb] using ih (acc ++ [b]) h2

theorem dedup_foldl_split {α : Type} [DecidableEq α] (l acc : List α) :
    ∃ l2, l.foldl (fun acc a => if a ∈ acc then acc else acc ++ [a]) acc = acc ++ l2
      ∧ l2.Sublist l := by
  induction l generalizing acc with
  | nil => exact ⟨[], by simp, List.nil_sublist _⟩
  | cons b bs ih =>
    by_cases hb : b ∈ acc
    · obtain ⟨l2, heq, hsub⟩ := ih acc
      exact ⟨l2, by simp [hb, heq], hsub.cons b⟩
    · obtain ⟨l2, heq, hsub⟩ := ih (acc ++ [b])
      refine ⟨b :: l2, ?_, hsub.cons₂ b⟩
      simp [hb, heq]

theorem dedupKeepFirst_sublist {α : Type} [DecidableEq α] (l : List α) :
    (dedupKeepFirst l).Sublist l := by
  obtain ⟨l2, heq, hsub⟩ := dedup_foldl_split l []
  unfold dedupKeepFirst
  rw [heq]
  simpa using hsub

/-- Claim C6: `get_recommendations` returns exactly the entries whose genre
equals the requested genre, deduplicated by full value-equality keeping
first occurrences, in library order, truncated to the first 3 — hence
never more than 3 entries and never a duplicate, even if the library
contains exact duplicate entries. -/
theorem claim_C6 (genre : String) (library : List BookData) :
    get_recommendations genre library
      = (dedupKeepFirst (library.filter (fun b => b.genre = genre))).take 3
    ∧ (get_recommendations genre library).length ≤ 3
    ∧ (get_recommendations genre library).Nodup
    ∧ (get_recommendations genre library).Sublist library
    ∧ ∀ b ∈ get_recommendations genre library, b.genre = genre ∧ b ∈ library := by
  have heq : get_recommendations genre library
      = (dedupKeepFirst (library.filter (fun b => b.genre = genre))).take 3 := by
    unfold get_recommendations dedupKeepFirst
    rw [rec_foldl_eq]
  refine ⟨heq, ?_, ?_, ?_, ?_⟩
  · rw [heq]; exact List.length_take_le _ _
  · rw [heq]
    have hnd : (dedupKeepFirst (library.filter (fun b => b.genre = genre))).Nodup := by
      unfold dedupKeepFirst
      exact dedup_foldl_nodup _ [] List.nodup_nil
    exact (List.take_sublist _ _).nodup hnd
  · rw [heq]
    exact (List.take_sublist _ _).trans
      ((dedupKeepFirst_sublist _).trans (List.filter_sublist _))
  · intro b hb
    rw [heq] at hb
    have hb2 : b ∈ dedupKeepFirst (library.filter (fun b => b.genre = genre)) :=
      (List.take_sublist _ _).subset hb
    have hb3 : b ∈ library.filter (fun b => b.genre = genre) := by
      unfold dedupKeepFirst at hb2
      rcases (dedup_foldl_mem (library.filter (fun b => b.genre = genre)) [] b).mp hb2 with
        h | h
      · simp at h
      · exact h
    have := List.mem_filter.mp hb3
    exact ⟨by simpa using this.2, this.1⟩

/-- Claim C7: search with the empty query returns the library unchanged,
and a non-empty query returns exactly the entries (in order) for which the
lowercased query is a substring of the lowercased title, author or genre. -/
theorem claim_C7 (library : List BookData) (q : String) (hq : q ≠ "") :
    filtered_books library "" = library
    ∧ (filtered_books library q).Sublist library
    ∧ ∀ b, b ∈ filtered_books library q ↔
        b ∈ library ∧
          ((pyLower q).data <:+: (pyLower b.title).data
           ∨ (pyLower q).data <:+: (pyLower b.author).data
           ∨ (pyLower q).data <:+: (pyLower b.genre).data) := by
  refine ⟨by simp [filtered_books], ?_, ?_⟩
  · unfold filtered_books
    rw [if_pos hq]
    exact List.filter_sublist _
  · intro b
    unfold filtered_books
    rw [if_pos hq]
    simp [List.mem_filter, strContains_iff, or_assoc]

/-- A sample library entry used by witnesses. -/
def johnSmithBook : BookData :=
  { file_path := "uploads/b.pdf", title := "T1", author := "John Smith",
    genre := "Fiction", pages := 1, description := "d", thumbnail := none }

/-- Witness for claim C7: the query "SMITH" matches an entry with author
"John Smith" (case-insensitive substring match). -/
theorem claim_C7_witness :
    johnSmithBook ∈ filtered_books [johnSmithBook] "SMITH" := by
  have h := (claim_C7 [johnSmithBook] "SMITH" (by decide)).2.2 johnSmithBook
  exact h.mpr ⟨List.mem_singleton.mpr rfl, Or.inr (Or.inl (by decide))⟩

theorem str_ne_of_data_ne (s : String) (h : s.data ≠ []) : s ≠ "" := by
  intro he
  rw [he] at h
  exact h rfl

theorem str_append_ne (s t : String) (h : t ≠ "") : s ++ t ≠ "" := by
  intro he
  have hd : s.data ++ t.data = [] := by
    simpa [String.data_append] using congrArg String.data he
  exact h (String.ext (List.append_eq_nil.mp hd).2)

theorem splitOnP_all_empty (p : Char → Bool) (l : List Char)
    (h : ∀ c ∈ l, p c = true) :
    ∀ piece ∈ splitOnP p l, piece = [] := by
  induction l with
  | nil =>
    intro piece hp
    simp [splitOnP] at hp
    exact hp
  | cons c cs ih =>
    intro piece hp
    have hc : p c = true := h c (List.mem_cons_self _ _)
    have hrest : ∀ x ∈ cs, p x = true := fun x hx => h x (List.mem_cons_of_mem _ hx)
    simp [splitOnP, hc] at hp
    rcases hp with h1 | h1
    · exact h1
    · exact ih hrest piece h1

theorem pyTokens_nil_of_all_ws (line : String)
    (h : ∀ c ∈ line.data, c.isWhitespace = true) : pyTokens line = [] := by
  unfold pyTokens
  rw [List.filter_eq_nil_iff]
  intro piece hp
  have := splitOnP_all_empty _ _ h piece hp
  simp [this]

theorem pyStrip_eq_empty (s : String) (h : pyStrip s = "") :
    ∀ c ∈ s.data, c.isWhitespace = true := by
  unfold pyStrip at h
  have hX : ((s.data.dropWhile Char.isWhitespace).reverse.dropWhile
      Char.isWhitespace).reverse = [] := by
    simpa using congrArg String.data h
  rw [List.reverse_eq_nil_iff, List.dropWhile_eq_nil_iff] at hX
  intro c hc
  rw [← List.takeWhile_append_dropWhile Char.isWhitespace s.data] at hc
  rcases List.mem_append.mp hc with h1 | h1
  · exact List.mem_takeWhile_imp h1
  · exact hX c (List.mem_reverse.mpr h1)

theorem isNameLine_strip_ne (line : String) (h : isNameLine line = true) :
    pyStrip line ≠ "" := by
  intro hs
  have htok : pyTokens line = [] :=
    pyTokens_nil_of_all_ws line (pyStrip_eq_empty line hs)
  unfold isNameLine at h
  simp [htok] at h

theorem inferResumeAuthor_ne (text fallback : String) (hf : fallback ≠ "") :
    inferResumeAuthor text fallback ≠ "" := by
  unfold inferResumeAuthor
  cases hfind : ((pySplitLines text).take 3).find? isNameLine with
  | none => simpa using hf
  | some line => simpa using isNameLine_strip_ne line (List.find?_some hfind)

theorem extract_title_ne (stem info_title info_author : String)
    (pages : List String) (hstem : stem ≠ "") :
    (extract_pdf_metadata stem info_title info_author pages).title ≠ "" := by
  have htitle : (if info_title = "" then stem else info_title) ≠ "" := by
    split_ifs with h1
    · exact hstem
    · exact h1
  cases h : isResumeText (firstPageText pages) with
  | false => simpa [extract_pdf_metadata, h] using htitle
  | true =>
    simp only [extract_pdf_metadata, h]
    split_ifs with h2 h3 <;> simp_all

theorem extract_author_ne (stem info_title info_author : String)
    (pages : List String) :
    (extract_pdf_metadata stem info_title info_author pages).author ≠ "" := by
  have hfb : (if info_author = "" then "Unknown" else info_author) ≠ "" := by
    split_ifs with h1
    · decide
    · exact h1
  cases h : isResumeText (firstPageText pages) with
  | false => simpa [extract_pdf_metadata, h] using hfb
  | true =>
    simpa [extract_pdf_metadata, h] using
      inferResumeAuthor_ne (firstPageText pages) _ hfb

theorem extract_run_title_ne (stem : String)
    (pdf : Option (String × String × List String)) (hstem : stem ≠ "") :
    (extract_pdf_metadata_run stem pdf).title ≠ "" := by
  cases pdf with
  | none => exact hstem
  | some v => exact extract_title_ne stem v.1 v.2.1 v.2.2 hstem

theorem extract_run_author_ne (stem : String)
    (pdf : Option (String × String × List String)) :
    (extract_pdf_metadata_run stem pdf).author ≠ "" := by
  cases pdf with
  | none => exact (by decide : ("Unknown" : String) ≠ "")
  | some v => exact extract_author_ne stem v.1 v.2.1 v.2.2

theorem categorize_fields_ne (title author p : String)
    (ht : title ≠ "") (ha : author ≠ "") :
    (categorize_by_content title author p).title ≠ ""
    ∧ (categorize_by_content title author p).author ≠ ""
    ∧ (categorize_by_content title author p).genre ≠ ""
    ∧ (categorize_by_content title author p).description ≠ "" := by
  have hdesc : pyTake p 200 ++ "..." ≠ "" := str_append_ne _ _ (by decide)
  cases hfind : categories.find? (bucketMatches (pyLower p)) with
  | none =>
    refine ⟨?_, ?_, ?_, ?_⟩
    · simpa [categorize_by_content, hfind] using ht
    · simpa [categorize_by_content, hfind] using ha
    · simp [categorize_by_content, hfind]
    · simpa [categorize_by_content, hfind] using hdesc
  | some bucket =>
    have hmem := List.mem_of_find?_eq_some hfind
    refine ⟨?_, ?_, ?_, ?_⟩
    · simpa [categorize_by_content, hfind] using ht
    · simpa [categorize_by_content, hfind] using ha
    · simp only [categorize_by_content, hfind]
      simp [categories] at hmem
      rcases hmem with h | h | h | h | h <;> subst h <;> decide
    · simpa [categorize_by_content, hfind] using hdesc

theorem fetch_fields_ne (title author p : String) (is_resume : Bool)
    (lookup : Lookup) (ht : title ≠ "") (ha : author ≠ "")
    (hv : ∀ v, lookup = Lookup.found v →
        (∀ s, v.title = some s → s ≠ "") ∧
        (∀ x l, v.authors = some (x :: l) → x ≠ "") ∧
        (∀ x l, v.categories = some (x :: l) → x ≠ "") ∧
        (∀ s, v.description = some s → s ≠ "")) :
    (fetch_book_info title author p is_resume lookup).title ≠ ""
    ∧ (fetch_book_info title author p is_resume lookup).author ≠ ""
    ∧ (fetch_book_info title author p is_resume lookup).genre ≠ ""
    ∧ (fetch_book_info title author p is_resume lookup).description ≠ "" := by
  cases is_resume with
  | true =>
    refine ⟨?_, ?_, ?_, ?_⟩
    · simpa [fetch_book_info] using ht
    · simpa [fetch_book_info] using ha
    · simp [fetch_book_info]
    · simp only [fetch_book_info, if_true]
      exact str_append_ne _ _ (by decide)
  | false =>
    cases lookup with
    | err => simpa [fetch_book_info] using categorize_fields_ne title author p ht ha
    | noMatch => simpa [fetch_book_info] using categorize_fields_ne title author p ht ha
    | found v =>
      have hvv := hv v rfl
      cases hh1 : (v.authors.getD [author]).head? with
      | none =>
        simpa [fetch_book_info, hh1] using categorize_fields_ne title author p ht ha
      | some a2 =>
        have ha2 : a2 ≠ "" := by
          cases hA : v.authors with
          | none =>
            rw [hA] at hh1
            simp at hh1
            exact hh1 ▸ ha
          | some la =>
            cases la with
            | nil => rw [hA] at hh1; simp at hh1
            | cons y ys =>
              rw [hA] at hh1
              simp at hh1
              exact hh1 ▸ hvv.2.1 y ys hA
        cases hh2 : (v.categories.getD ["Uncategorized"]).head? with
        | none =>
          simpa [fetch_book_info, hh1, hh2] using categorize_fields_ne title author p ht ha
        | some g2 =>
          have hg2 : g2 ≠ "" := by
            cases hC : v.categories with
            | none =>
              rw [hC] at hh2
              simp at hh2
              rw [← hh2]
              decide
            | some lc =>
              cases lc with
              | nil => rw [hC] at hh2; simp at hh2
              | cons y ys =>
                rw [hC] at hh2
                simp at hh2
                exact hh2 ▸ hvv.2.2.1 y ys hC
          have htit : v.title.getD title ≠ "" := by
            cases hT : v.title with
            | none => simpa using ht
            | some s => simpa using hvv.1 s hT
          have hdes : v.description.getD "No description available" ≠ "" := by
            cases hD : v.description with
            | none => decide
            | some s => simpa using hvv.2.2.2 s hD
          refine ⟨?_, ?_, ?_, ?_⟩ <;> simpa [fetch_book_info, hh1, hh2] using
            (by first
              | exact htit
              | exact ha2
              | exact hg2
              | exact hdes)

/-- Counterexample for claim C5: a non-resume upload classified through the
keyword buckets gets `thumbnail = none` (src/app.py line 123), so not every
field of the appended record carries a non-empty fallback value. -/
theorem claim_C5_counterexample :
    (build_book_data "uploads/plan.pdf" "plan"
      (some ("", "", ["business plan"])) Lookup.err).thumbnail = none := by
  decide

/-- Claim C5 (amended): on every classification path, title, author, genre
and description of the assembled record are non-empty (given a non-empty
file stem and catalog-supplied fields that are non-empty when present);
the thumbnail, however, is `none` on the keyword-bucket path and whenever
the catalog supplies no thumbnail, so the record is not always fully
populated with non-empty fallbacks. -/
theorem claim_C5_amended (file_path stem : String)
    (pdf : Option (String × String × List String)) (lookup : Lookup)
    (hstem : stem ≠ "")
    (hv : ∀ v, lookup = Lookup.found v →
        (∀ s, v.title = some s → s ≠ "") ∧
        (∀ x l, v.authors = some (x :: l) → x ≠ "") ∧
        (∀ x l, v.categories = some (x :: l) → x ≠ "") ∧
        (∀ s, v.description = some s → s ≠ "")) :
    (build_book_data file_path stem pdf lookup).title ≠ ""
    ∧ (build_book_data file_path stem pdf lookup).author ≠ ""
    ∧ (build_book_data file_path stem pdf lookup).genre ≠ ""
    ∧ (build_book_data file_path stem pdf lookup).description ≠ "" := by
  have ht := extract_run_title_ne stem pdf hstem
  have ha := extract_run_author_ne stem pdf
  have h := fetch_fields_ne (extract_pdf_metadata_run stem pdf).title
    (extract_pdf_metadata_run stem pdf).author
    (extract_pdf_metadata_run stem pdf).content_preview
    (extract_pdf_metadata_run stem pdf).is_resume lookup ht ha hv
  simpa [build_book_data] using h

/-- Witness for claim C5 (amended): a resume upload whose stem is "cv"
yields non-empty title, author, genre and description. -/
theorem claim_C5_amended_witness :
    (build_book_data "uploads/cv.pdf" "cv"
      (some ("", "", ["Jane A Doe\nCurriculum Vitae"])) Lookup.err).title ≠ ""
    ∧ (build_book_data "uploads/cv.pdf" "cv"
      (some ("", "", ["Jane A Doe\nCurriculum Vitae"])) Lookup.err).author ≠ ""
    ∧ (build_book_data "uploads/cv.pdf" "cv"
      (some ("", "", ["Jane A Doe\nCurriculum Vitae"])) Lookup.err).genre ≠ ""
    ∧ (build_book_data "uploads/cv.pdf" "cv"
      (some ("", "", ["Jane A Doe\nCurriculum Vitae"])) Lookup.err).description ≠ "" :=
  claim_C5_amended "uploads/cv.pdf" "cv"
    (some ("", "", ["Jane A Doe\nCurriculum Vitae"])) Lookup.err
    (by decide) (by intro v hveq; simp at hveq)

theorem mem_dedupKeepFirst {α : Type} [DecidableEq α] (l : List α) (x : α) :
    x ∈ dedupKeepFirst l ↔ x ∈ l := by
  unfold dedupKeepFirst
  rw [dedup_foldl_mem]
  simp

theorem dedupKeepFirst_nodup {α : Type} [DecidableEq α] (l : List α) :
    (dedupKeepFirst l).Nodup := by
  unfold dedupKeepFirst
  exact dedup_foldl_nodup _ [] List.nodup_nil

theorem dedupKeepFirst_append_singleton {α : Type} [DecidableEq α]
    (l : List α) (a : α) :
    dedupKeepFirst (l ++ [a])
      = if a ∈ l then dedupKeepFirst l else dedupKeepFirst l ++ [a] := by
  unfold dedupKeepFirst
  rw [List.foldl_append]
  simp only [List.foldl_cons, List.foldl_nil]
  by_cases h : a ∈ l
  · rw [if_pos ((dedup_foldl_mem l [] a).mpr (Or.inr h)), if_pos h]
  · rw [if_neg ?hnm, if_neg h]
    case hnm =>
      intro hc
      rcases (dedup_foldl_mem l [] a).mp hc with h1 | h1
      · simp at h1
      · exact h h1

theorem bump_genre_map (pfx : List String) (g : String) :
    bump_genre ((dedupKeepFirst pfx).map (fun x => (x, pfx.count x))) g
      = (dedupKeepFirst (pfx ++ [g])).map (fun x => (x, (pfx ++ [g]).count x)) := by
  by_cases hg : g ∈ pfx
  · have hc : ((dedupKeepFirst pfx).map (fun x => (x, pfx.count x))).any
        (fun q => q.1 = g) = true := by
      rw [List.any_eq_true]
      exact ⟨(g, pfx.count g),
        List.mem_map_of_mem _ ((mem_dedupKeepFirst pfx g).mpr hg), by simp⟩
    simp only [bump_genre, hc, if_true]
    rw [dedupKeepFirst_append_singleton, if_pos hg, List.map_map]
    apply List.map_congr_left
    intro x _
    by_cases hxg : x = g
    · subst hxg
      simp [List.count_append, List.count_singleton]
    · have hgx : ¬ (g == x) = true := by
        simp only [beq_iff_eq]
        exact fun he => hxg he.symm
      simp [hxg, List.count_append, List.count_singleton, hgx]
  · have hc : ((dedupKeepFirst pfx).map (fun x => (x, pfx.count x))).any
        (fun q => q.1 = g) = false := by
      rw [List.any_eq_false]
      intro q hq
      rcases List.mem_map.mp hq with ⟨x, hx, hfx⟩
      rw [← hfx]
      simp only [decide_eq_true_eq]
      intro heq
      exact hg (heq ▸ (mem_dedupKeepFirst pfx x).mp hx)
    simp only [bump_genre, hc, Bool.false_eq_true, if_false]
    rw [dedupKeepFirst_append_singleton, if_neg hg, List.map_append]
    congr 1
    · apply List.map_congr_left
      intro x hx
      have hxp : x ∈ pfx := (mem_dedupKeepFirst pfx x).mp hx
      have hgx : ¬ (g == x) = true := by
        simp only [beq_iff_eq]
        exact fun he => hg (he ▸ hxp)
      simp [List.count_append, List.count_singleton, hgx]
    · have h1 : (pfx ++ [g]).count g = 1 := by
        rw [List.count_append, List.count_eq_zero.mpr hg]
        simp [List.count_singleton]
      simp [h1, List.count_eq_zero.mpr hg]

theorem genre_count_eq_aux (rest pfx : List String) :
    rest.foldl (fun cs g => bump_genre cs g)
        ((dedupKeepFirst pfx).map (fun x => (x, pfx.count x)))
      = (dedupKeepFirst (pfx ++ rest)).map (fun x => (x, (pfx ++ rest).count x)) := by
  induction rest generalizing pfx with
  | nil => simp
  | cons g rest ih =>
    rw [List.foldl_cons, bump_genre_map, ih (pfx ++ [g]), List.append_assoc]
    rfl

theorem genre_count_eq (library : List BookData) :
    genre_count library
      = (dedupKeepFirst (genresOf library)).map
          (fun g => (g, (genresOf library).count g)) := by
  have h0 : dedupKeepFirst ([] : List String) = [] := rfl
  have h := genre_count_eq_aux (genresOf library) []
  rw [h0] at h
  simp only [List.map_nil, List.nil_append] at h
  rw [← h]
  unfold genre_count genresOf
  rw [List.foldl_map]

theorem pickMax_split (ps : List (String × Nat)) (p0 : String × Nat) :
    ∃ pre post, p0 :: ps = pre ++ pickMax p0 ps :: post
      ∧ (∀ q ∈ pre, q.2 < (pickMax p0 ps).2)
      ∧ ∀ q ∈ p0 :: ps, q.2 ≤ (pickMax p0 ps).2 := by
  induction ps generalizing p0 with
  | nil => exact ⟨[], [], rfl, by simp, by simp [pickMax]⟩
  | cons q qs ih =>
    by_cases h : p0.2 < q.2
    · have hr : pickMax p0 (q :: qs) = pickMax q qs := by
        simp [pickMax, h]
      obtain ⟨pre, post, heq, hpre, hle⟩ := ih q
      refine ⟨p0 :: pre, post, ?_, ?_, ?_⟩
      · rw [hr, List.cons_append, ← heq]
      · intro x hx
        rw [hr]
        rcases List.mem_cons.mp hx with h1 | h1
        · rw [h1]
          exact lt_of_lt_of_le h (hle q (List.mem_cons_self _ _))
        · exact hpre x h1
      · intro x hx
        rw [hr]
        rcases List.mem_cons.mp hx with h1 | h1
        · rw [h1]
          exact le_of_lt (lt_of_lt_of_le h (hle q (List.mem_cons_self _ _)))
        · exact hle x h1
    · have hr : pickMax p0 (q :: qs) = pickMax p0 qs := by
        simp [pickMax, h]
      have hq : q.2 ≤ p0.2 := Nat.le_of_not_lt h
      obtain ⟨pre, post, heq, hpre, hle⟩ := ih p0
      have hp0le : p0.2 ≤ (pickMax p0 qs).2 := hle p0 (List.mem_cons_self _ _)
      cases pre with
      | nil =>
        simp only [List.nil_append] at heq
        injection heq with he1 he2
        refine ⟨[], q :: qs, ?_, by simp, ?_⟩
        · rw [hr, List.nil_append, ← he1]
        · intro x hx
          rw [hr]
          rcases List.mem_cons.mp hx with h1 | h1
          · rw [h1]; exact hp0le
          · rcases List.mem_cons.mp h1 with h2 | h2
            · rw [h2]; exact hq.trans hp0le
            · exact hle x (List.mem_cons_of_mem _ h2)
      | cons y pre2 =>
        simp only [List.cons_append] at heq
        injection heq with he1 he2
        have hyp : p0.2 < (pickMax p0 qs).2 := by
          have hy := hpre y (List.mem_cons_self _ _)
          rw [← he1] at hy
          exact hy
        refine ⟨p0 :: q :: pre2, post, ?_, ?_, ?_⟩
        · rw [hr]
          simp only [List.cons_append]
          rw [← he2]
        · intro x hx
          rw [hr]
          rcases List.mem_cons.mp hx with h1 | h1
          · rw [h1]; exact hyp
          · rcases List.mem_cons.mp h1 with h2 | h2
            · rw [h2]; exact lt_of_le_of_lt hq hyp
            · exact hpre x (List.mem_cons_of_mem _ h2)
        · intro x hx
          rw [hr]
          rcases List.mem_cons.mp hx with h1 | h1
          · rw [h1]; exact hp0le
          · rcases List.mem_cons.mp h1 with h2 | h2
            · rw [h2]; exact hq.trans hp0le
            · exact hle x (List.mem_cons_of_mem _ h2)

theorem nodup_split_unique {α : Type} (a : α) (s1 s2 : List α) :
    ∀ p1 p2 : List α, (p1 ++ a :: s1).Nodup → p1 ++ a :: s1 = p2 ++ a :: s2 →
      p1 = p2 := by
  intro p1
  induction p1 with
  | nil =>
    intro p2 hnd h
    cases p2 with
    | nil => rfl
    | cons b t =>
      exfalso
      simp only [List.nil_append, List.cons_append] at h hnd
      injection h with h1 h2
      have hmem : a ∈ s1 := by
        rw [h2]
        exact List.mem_append_right _ (List.mem_cons_self _ _)
      exact (List.nodup_cons.mp hnd).1 hmem
  | cons x t ih =>
    intro p2 hnd h
    cases p2 with
    | nil =>
      exfalso
      simp only [List.nil_append, List.cons_append] at h hnd
      injection h with h1 h2
      subst h1
      exact (List.nodup_cons.mp hnd).1
        (List.mem_append_right _ (List.mem_cons_self _ _))
    | cons y u =>
      simp only [List.cons_append] at h hnd
      injection h with h1 h2
      subst h1
      rw [ih u (List.nodup_cons.mp hnd).2 h2]

/-- Claim C8: for a non-empty library, `favorite_genre` returns a genre of
the library with the maximum occurrence count, ties broken by whichever
genre was encountered first (every genre encountered earlier in
first-occurrence order has a strictly smaller count).  The result is a
function of the library, hence deterministic for a given input order. -/
theorem claim_C8 (library : List BookData) (hne : library ≠ []) :
    ∃ g, favorite_genre library = some g
      ∧ g ∈ genresOf library
      ∧ (∀ b ∈ library,
          (genresOf library).count b.genre ≤ (genresOf library).count g)
      ∧ ∀ pre post, dedupKeepFirst (genresOf library) = pre ++ g :: post →
          ∀ g2 ∈ pre,
            (genresOf library).count g2 < (genresOf library).count g := by
  cases library with
  | nil => exact absurd rfl hne
  | cons b0 lib0 =>
    have hgc := genre_count_eq (b0 :: lib0)
    have hd0 : b0.genre ∈ dedupKeepFirst (genresOf (b0 :: lib0)) :=
      (mem_dedupKeepFirst _ _).mpr (by simp [genresOf])
    cases hgc2 : genre_count (b0 :: lib0) with
    | nil =>
      exfalso
      rw [hgc2] at hgc
      cases hdk : dedupKeepFirst (genresOf (b0 :: lib0)) with
      | nil => rw [hdk] at hd0; simp at hd0
      | cons x xs => rw [hdk] at hgc; simp at hgc
    | cons p ps =>
      rw [hgc2] at hgc
      obtain ⟨pre, post, hsplit, hpre, hle⟩ := pickMax_split ps p
      have hrmem : pickMax p ps ∈ p :: ps := by
        rw [hsplit]
        exact List.mem_append_right _ (List.mem_cons_self _ _)
      have hrmem2 : pickMax p ps ∈ (dedupKeepFirst (genresOf (b0 :: lib0))).map
          (fun g => (g, (genresOf (b0 :: lib0)).count g)) := by
        rw [← hgc]
        exact hrmem
      obtain ⟨g, hgmem, hfg⟩ := List.mem_map.mp hrmem2
      refine ⟨g, ?_, ?_, ?_, ?_⟩
      · simp only [favorite_genre, hgc2]
        rw [← hfg]
      · exact (mem_dedupKeepFirst _ _).mp hgmem
      · intro b hb
        have hbg : b.genre ∈ genresOf (b0 :: lib0) := List.mem_map_of_mem _ hb
        have hbmem : (b.genre, (genresOf (b0 :: lib0)).count b.genre) ∈ p :: ps := by
          rw [hgc]
          exact List.mem_map_of_mem _ ((mem_dedupKeepFirst _ _).mpr hbg)
        have hb2 := hle _ hbmem
        rw [← hfg] at hb2
        exact hb2
      · intro pre2 post2 hsplit2 g2 hg2
        have hmapsplit : (dedupKeepFirst (genresOf (b0 :: lib0))).map
            (fun g => (g, (genresOf (b0 :: lib0)).count g))
            = pre ++ pickMax p ps :: post := by
          rw [← hgc]
          exact hsplit
        obtain ⟨d1, d2, hdd, hm1, hm2⟩ := List.map_eq_append_iff.mp hmapsplit
        obtain ⟨x, d2t, hd2, hfx, hm2t⟩ := List.map_eq_cons_iff.mp hm2
        have hxg : x = g := by
          have hx2 : (x, (genresOf (b0 :: lib0)).count x)
              = (g, (genresOf (b0 :: lib0)).count g) := by
            rw [hfx, ← hfg]
          exact (Prod.mk.injEq _ _ _ _ ▸ hx2).1
        subst hxg
        rw [hd2] at hdd
        have hpp : pre2 = d1 :=
          nodup_split_unique x post2 d2t pre2 d1
            (by rw [← hsplit2]; exact dedupKeepFirst_nodup _)
            (hsplit2.symm.trans hdd)
        have hfg2 : (g2, (genresOf (b0 :: lib0)).count g2) ∈ pre := by
          rw [← hm1]
          exact List.mem_map_of_mem _ (by rw [← hpp]; exact hg2)
        have hlt := hpre _ hfg2
        rw [← hfg] at hlt
        exact hlt

/-- Witness for claim C8: a concrete three-book library has a favorite
genre (the hypothesis of non-emptiness is discharged on it). -/
theorem claim_C8_witness :
    favorite_genre
      [{ file_path := "a", title := "A", author := "X", genre := "Technology",
         pages := 1, description := "d", thumbnail := none },
       johnSmithBook,
       { file_path := "b", title := "B", author := "Y", genre := "Technology",
         pages := 2, description := "d", thumbnail := none }] ≠ none := by
  obtain ⟨g, hg, -, -, -⟩ := claim_C8
    [{ file_path := "a", title := "A", author := "X", genre := "Technology",
       pages := 1, description := "d", thumbnail := none },
     johnSmithBook,
     { file_path := "b", title := "B", author := "Y", genre := "Technology",
       pages := 2, description := "d", thumbnail := none }] (by simp)
  rw [hg]
  simp

end ELibrary
